import Mathlib

/-!
Verification of the `evfi` helper library (`helpers.py`).

The development shallowly embeds the functions of `helpers.py` in Lean:

* the typed dataset codec `save_dataset` / `load_dataset`, where the file is
  modelled as a single `String` and a dataset as a list of typed columns plus
  a list of rows of cell values;
* the lookup helpers `get_rid_by_mid`, `get_rid_by_name`, `get_mid_by_name`,
  `get_name_by_mid`, `get_mid_by_coords` over an explicit mapping table;
* the quarter-end helper `get_last_day_of_quarter` over a model of
  `pandas.Timestamp` (including its nanosecond range bounds).

Python exceptions are modelled with `Except`; `None` results with `Option`.
The behaviour of the external `pandas` calls that the source delegates to
(`DataFrame.to_csv`, `pd.read_csv`, `pd.Timestamp`) is modelled from their
documented behaviour for the fragment the source exercises: comma-separated
text without quoting (values containing a comma, a double quote or a newline
trigger csv quoting in the real library and are outside the fragment the
theorems quantify over), the default NA sentinel strings of `read_csv`,
NaN padding of short rows, and rejection of duplicate column names.
-/

/-! ### Characters and Python-style line/field splitting -/

/-- The ASCII whitespace characters stripped by Python's `str.rstrip()`. -/
def isPySpace (c : Char) : Bool :=
  c = ' ' || c = '\t' || c = '\n' || c = '\r' || c = '\x0b' || c = '\x0c'

/-- Split a character list at every occurrence of the separator `c`
(the semantics of Python's `str.split(sep)` for a one-character separator:
the result is never empty, and `[[]]` on empty input). -/
def splitSep (c : Char) : List Char → List (List Char)
  | [] => [[]]
  | x :: xs =>
    if x = c then [] :: splitSep c xs
    else
      match splitSep c xs with
      | p :: ps => (x :: p) :: ps
      | [] => [[x]]

/-- Interleave the separator `c` between the parts (inverse of `splitSep`). -/
def joinSep (c : Char) : List (List Char) → List Char
  | [] => []
  | [p] => p
  | p :: ps => p ++ c :: joinSep c ps

/-- Remove trailing Python whitespace (the semantics of `str.rstrip()`). -/
def rstripChars (l : List Char) : List Char :=
  (l.reverse.dropWhile isPySpace).reverse

/-- Whether a character list ends in a Python whitespace character. -/
def endsInWs (l : List Char) : Bool :=
  match l.getLast? with
  | some ch => isPySpace ch
  | none => false

/-- The lines of a text file as Python file iteration yields them (without
their terminators): splitting at `'\n'`, where a trailing newline does not
start a final empty line.  An empty file has no lines. -/
def pythonLines (s : String) : List String :=
  (if (splitSep '\n' s.data).getLast? = some [] then (splitSep '\n' s.data).dropLast
   else splitSep '\n' s.data).map String.mk

/-- `str.split(",")` on a `String`. -/
def strSplitOn (c : Char) (s : String) : List String :=
  (splitSep c s.data).map String.mk

/-- `str.rstrip()` on a `String`. -/
def strRstrip (s : String) : String :=
  String.mk (rstripChars s.data)

/-- Join strings with a one-character separator (`sep.join(parts)`). -/
def strJoin (c : Char) (parts : List String) : String :=
  String.mk (joinSep c (parts.map String.data))

/-! ### Decimal integers: the text form `str`/`to_csv` produce and the
`read_csv` integer tokenizer.  Printing is by fuel-based repeated division
(structurally recursive, hence kernel-evaluable). -/

/-- The decimal digit value of a character, if it is a digit. -/
def charToDigit (c : Char) : Option Nat :=
  if '0' ≤ c ∧ c ≤ '9' then some (c.toNat - '0'.toNat) else none

/-- Digits of `n`, most significant first; empty for `n = 0`.
The first argument is fuel, sufficient whenever it is at least `n`. -/
def natPrintAux : Nat → Nat → List Char
  | 0, _ => []
  | fuel + 1, n =>
    if n = 0 then []
    else natPrintAux fuel (n / 10) ++ [Nat.digitChar (n % 10)]

/-- The decimal digits of a natural number, as Python's `str` prints it. -/
def printNatChars (n : Nat) : List Char :=
  if n = 0 then ['0'] else natPrintAux n n

/-- The decimal form of an integer, as Python's `str` prints it. -/
def printIntChars (n : Int) : List Char :=
  if n < 0 then '-' :: printNatChars n.natAbs else printNatChars n.toNat

/-- Horner accumulation of decimal digits; `none` on a non-digit character. -/
def parseDigitsAux (acc : Nat) : List Char → Option Nat
  | [] => some acc
  | c :: cs =>
    match charToDigit c with
    | some d => parseDigitsAux (acc * 10 + d) cs
    | none => none

/-- Parse a non-empty all-digit character list as a natural number. -/
def parseNatChars (l : List Char) : Option Nat :=
  match l with
  | [] => none
  | _ => parseDigitsAux 0 l

/-- Parse an optionally `'-'`-signed decimal integer (the form the
`read_csv` tokenizer accepts for an `int64` column). -/
def parseIntChars (l : List Char) : Option Int :=
  match l with
  | '-' :: rest => (parseNatChars rest).map (fun m => -(m : Int))
  | _ => (parseNatChars l).map (fun m => (m : Int))


/-! ### Data model: datasets, cell values, Python exceptions -/

/-- A cell value of a dataset: an `int64` integer, an `object` (string), or
the missing-value marker `NaN`. -/
inductive Value
  | vInt (n : Int)
  | vStr (s : String)
  | vNaN
deriving DecidableEq

/-- A dataset column: its name and its declared dtype tag
(the string `str(dtype)` produces, e.g. `"int64"`, `"object"`). -/
structure Column where
  name : String
  dtype : String
deriving DecidableEq

/-- An in-memory `pandas.DataFrame` as the codec sees it: ordered columns
with declared dtypes, and rows of cell values. -/
structure Dataset where
  cols : List Column
  rows : List (List Value)
deriving DecidableEq

/-- The Python exceptions the embedded functions can raise. -/
inductive PyError
  | stopIteration
  | parserError
  | typeCoercionError
  | badDtypeError
  | duplicateNamesError
  | indexError
  | outOfBoundsDatetime
  | valueError
deriving DecidableEq

/-- The default NA sentinel strings of `pd.read_csv` (its `na_values`
default), which parse as `NaN` in any column. -/
def naTokens : List String :=
  ["", "#N/A", "#N/A N/A", "#NA", "-1.#IND", "-1.#INF", "-1.#QNAN", "-NaN",
   "-nan", "1.#IND", "1.#QNAN", "<NA>", "N/A", "NA", "NULL", "NaN", "None",
   "n/a", "nan", "null"]

/-- The dtype tags whose value parsing the embedding models (the two tags
the repository's datasets use). -/
def supportedTag (t : String) : Bool :=
  t == "int64" || t == "object"

/-! ### `save_dataset` -/

/-- The text `DataFrame.to_csv` writes for one cell: integers in decimal,
strings verbatim, `NaN` as the empty string (`na_rep` default). -/
def valueField : Value → String
  | .vInt n => String.mk (printIntChars n)
  | .vStr s => s
  | .vNaN => ""

/-- One data line of the csv body: the cells joined by commas. -/
def rowLine (r : List Value) : String :=
  strJoin ',' (r.map valueField)

/-- The first line `save_dataset` writes: `",".join(map(str, dataset.dtypes))`. -/
def typeLine (cols : List Column) : String :=
  strJoin ',' (cols.map (fun col => col.dtype))

/-- The header line `to_csv` writes: the column names joined by commas. -/
def nameLine (cols : List Column) : String :=
  strJoin ',' (cols.map (fun col => col.name))

/-- All lines `save_dataset` writes, in order: the dtype line, then the
`to_csv` output (name header plus one line per row, `index=False`). -/
def saveLines (D : Dataset) : List String :=
  typeLine D.cols :: nameLine D.cols :: D.rows.map rowLine

/-- Assemble lines into file text, each line terminated by `"\n"`
(`lineterminator="\n"`). -/
def mkFile (lines : List String) : String :=
  String.mk (joinSep '\n' (lines.map String.data ++ [[]]))

/-- `save_dataset(filename, dataset)`: the file content written. -/
def save_dataset (D : Dataset) : String :=
  mkFile (saveLines D)

/-! ### `load_dataset` -/

/-- `dict(zip(columns, types))` lookup: the value bound to a key, if any.
(Python's dict keeps the last binding of a duplicated key; the lookup is
only reached when the column names are duplicate-free — `read_csv` rejects
duplicated `names` — so first and last binding coincide.) -/
def dictLookup (d : List (String × String)) (k : String) : Option String :=
  (d.find? (fun p => p.1 == k)).map (fun p => p.2)

/-- Parse one field of a data row given the column's dtype from the dtype
dict (`none` when the dict has no entry for the column, in which case
`read_csv` infers a dtype; the embedding approximates inference by
int-else-object, which no theorem below relies on).  NA sentinels parse as
`NaN`; an `int64` column rejects NA and non-integer text (`ValueError` in
pandas, `typeCoercionError` here). -/
def coerceField (tag : Option String) (f : String) : Except PyError Value :=
  match tag with
  | some "int64" =>
    if f ∈ naTokens then .error .typeCoercionError
    else
      match parseIntChars f.data with
      | some n => .ok (.vInt n)
      | none => .error .typeCoercionError
  | some "object" =>
    if f ∈ naTokens then .ok .vNaN else .ok (.vStr f)
  | some _ => .error .badDtypeError
  | none =>
    if f ∈ naTokens then .ok .vNaN
    else
      match parseIntChars f.data with
      | some n => .ok (.vInt n)
      | none => .ok (.vStr f)

/-- Convert the fields of one tokenized row.  A row shorter than the header
is padded with missing values (`read_csv` NaN-pads short rows); a row wider
than the header fails (modelled as a parser error; uniformly wider files
would instead gain index columns in pandas — no theorem below quantifies
over that case). -/
def parseRow (tags : List (Option String)) (fields : List String) :
    Except PyError (List Value) :=
  match tags, fields with
  | [], [] => .ok []
  | [], _ :: _ => .error .parserError
  | t :: ts, [] => do
    let v ← coerceField t ""
    let vs ← parseRow ts []
    .ok (v :: vs)
  | t :: ts, f :: fs => do
    let v ← coerceField t f
    let vs ← parseRow ts fs
    .ok (v :: vs)

/-- Parse the data section: blank lines are skipped
(`skip_blank_lines=True`), every other line is split at commas and its
fields coerced. -/
def parseRows (tags : List (Option String)) : List String → Except PyError (List (List Value))
  | [] => .ok []
  | l :: ls =>
    if l = "" then parseRows tags ls
    else do
      let r ← parseRow tags (strSplitOn ',' l)
      let rs ← parseRows tags ls
      .ok (r :: rs)

/-- `load_dataset(filename)`: consume the first two lines with `next(f)`
(raising `StopIteration` if absent), `rstrip` and split them at commas,
build `dict(zip(columns, types))`, and parse the remaining stream with
`pd.read_csv(f, dtype=..., names=columns)`.  `read_csv` rejects duplicated
`names` and unknown dtype strings before parsing any row. -/
def load_dataset (s : String) : Except PyError Dataset :=
  match pythonLines s with
  | t :: c :: rest =>
    let types := strSplitOn ',' (strRstrip t)
    let columns := strSplitOn ',' (strRstrip c)
    let dmap := List.zip columns types
    let tags := columns.map (fun n => dictLookup dmap n)
    if columns.Nodup then
      if dmap.all (fun p => supportedTag p.2) then
        match parseRows tags rest with
        | .ok rows =>
          .ok ⟨List.zipWith (fun n t? => ⟨n, t?.getD "object"⟩) columns tags, rows⟩
        | .error e => .error e
      else .error .badDtypeError
    else .error .duplicateNamesError
  | _ => .error .stopIteration

deriving instance DecidableEq for Except

/-! ### Lookup helpers over the mapping table -/

/-- One row of the municipality/region mapping table, with numeric
identifiers and the three language variants of each name. -/
structure MappingRow where
  municipality_id : Int
  region_id : Int
  region_fi : String
  region_sv : String
  region_en : String
  municipality_fi : String
  municipality_sv : String
  municipality_en : String
deriving DecidableEq

/-- `series.values[0]`: the first element, `IndexError` when empty. -/
def valuesGet0 {α : Type} : List α → Except PyError α
  | [] => .error .indexError
  | x :: _ => .ok x

/-- `get_rid_by_mid(municipality_id, mappings)`. -/
def get_rid_by_mid (municipality_id : Int) (mappings : List MappingRow) :
    Except PyError (Option Int) :=
  let mt := mappings.filter (fun r => r.municipality_id == municipality_id)
  if mt.isEmpty then .ok none
  else do
    let v ← valuesGet0 (mt.map (fun r => r.region_id))
    .ok (some v)

/-- `get_rid_by_name(region_name, mappings)`. -/
def get_rid_by_name (region_name : String) (mappings : List MappingRow) :
    Except PyError (Option Int) :=
  if region_name == "WHOLE COUNTRY" then .ok (some 0)
  else
    let mt := mappings.filter (fun r =>
      r.region_fi == region_name || r.region_sv == region_name ||
      r.region_en == region_name)
    if mt.isEmpty then .ok none
    else do
      let v ← valuesGet0 (mt.map (fun r => r.region_id))
      .ok (some v)

/-- `get_mid_by_name(municipality_name, mappings)`. -/
def get_mid_by_name (municipality_name : String) (mappings : List MappingRow) :
    Except PyError (Option Int) :=
  let mt := mappings.filter (fun r =>
    r.municipality_fi == municipality_name ||
    r.municipality_sv == municipality_name ||
    r.municipality_en == municipality_name)
  if mt.isEmpty then .ok none
  else do
    let v ← valuesGet0 (mt.map (fun r => r.municipality_id))
    .ok (some v)

/-- `get_name_by_mid(municipality_id, mappings)`: note the source indexes
`.values[0]` without an emptiness guard. -/
def get_name_by_mid (municipality_id : Int) (mappings : List MappingRow) :
    Except PyError String :=
  valuesGet0
    ((mappings.filter (fun r => r.municipality_id == municipality_id)).map
      (fun r => r.municipality_en))

/-- One polygon of the municipality map, as the geospatial black box
exposes it: a containment test and the `NATCODE` attribute. -/
structure GeoRegion (P : Type) where
  containsPoint : P → Bool
  natcode : Int

/-- The municipality map handed to `get_mid_by_coords`: a coordinate
transformation into the map's reference system and the polygons.
`gpd.sjoin(..., how="left", predicate="within")` on a single point keeps
the point's row, attaching the attributes of the first containing polygon,
or `NaN` when no polygon contains it. -/
structure GeoMap (P : Type) where
  toMapCrs : P → P
  regions : List (GeoRegion P)

/-- `get_mid_by_coords(coords, map)`. -/
def get_mid_by_coords {P : Type} (coords : P) (map : GeoMap P) : Option Int :=
  let point := map.toMapCrs coords
  let natcode := (map.regions.find? (fun rg => rg.containsPoint point)).map
    (fun rg => rg.natcode)
  match natcode with
  | none => none
  | some n => some n

/-! ### `get_last_day_of_quarter` and the `pandas.Timestamp` model -/

/-- A calendar date, the component view of a `pandas.Timestamp` built from
`(year, month, day)` (midnight, no time zone). -/
structure Timestamp where
  year : Int
  month : Nat
  day : Nat
deriving DecidableEq

/-- Proleptic Gregorian leap year rule. -/
def isLeapYear (y : Int) : Bool :=
  (y % 4 == 0 && y % 100 != 0) || y % 400 == 0

/-- Days in a month of the proleptic Gregorian calendar. -/
def daysInMonth (y : Int) (m : Nat) : Nat :=
  if m == 2 then (if isLeapYear y then 29 else 28)
  else if m == 4 || m == 6 || m == 9 || m == 11 then 30 else 31

/-- A date packed for lexicographic comparison. -/
def dateIdx (y : Int) (m d : Nat) : Int :=
  y * 10000 + (m : Int) * 100 + (d : Int)

/-- `pd.Timestamp(year, month, day)`.  A `Timestamp` carries nanoseconds in
a signed 64-bit integer, so `pd.Timestamp.min` is 1677-09-21T00:12:43 and
`pd.Timestamp.max` is 2262-04-11T23:47:16: a midnight component-built
timestamp exists exactly for dates from 1677-09-22 to 2262-04-11, and the
constructor raises `OutOfBoundsDatetime` outside that range (invalid
calendar components raise `ValueError`). -/
def pdTimestamp (y : Int) (m d : Nat) : Except PyError Timestamp :=
  if 1 ≤ m ∧ m ≤ 12 ∧ 1 ≤ d ∧ d ≤ daysInMonth y m then
    if 16770922 ≤ dateIdx y m d ∧ dateIdx y m d ≤ 22620411 then
      .ok ⟨y, m, d⟩
    else .error .outOfBoundsDatetime
  else .error .valueError

/-- `get_last_day_of_quarter(year, quarter)`: the Python function returns a
quarter-end `pd.Timestamp` for quarters 1–4 and falls off the end (returns
`None`) for any other quarter. -/
def get_last_day_of_quarter (year : Int) (quarter : Int) :
    Except PyError (Option Timestamp) :=
  if quarter = 1 then (pdTimestamp year 3 31).map some
  else if quarter = 2 then (pdTimestamp year 6 30).map some
  else if quarter = 3 then (pdTimestamp year 9 30).map some
  else if quarter = 4 then (pdTimestamp year 12 31).map some
  else .ok none

/-! ### File-handle traces for the codec

Both codec functions open their file with a `with open(...) as f:` block,
whose semantics is: acquire the handle, run the body, and release the
handle when the block is exited — whether by normal return or by a
propagating exception.  The embedding makes that resource behaviour
explicit as an event trace. -/

/-- A file-handle event: acquisition (with mode), a line transfer, release. -/
inductive FileEvent
  | acquire (filename : String) (mode : String)
  | writeLine (l : String)
  | readLine (l : String)
  | release (filename : String)
deriving DecidableEq

/-- Whether an event acquires a handle. -/
def isAcquire : FileEvent → Bool
  | .acquire _ _ => true
  | _ => false

/-- Whether an event releases a handle. -/
def isRelease : FileEvent → Bool
  | .release _ => true
  | _ => false

/-- The handle trace of `save_dataset(filename, dataset)`: one scoped
acquisition in `"wt"` mode, the written lines, one release. -/
def save_dataset_trace (filename : String) (D : Dataset) : List FileEvent :=
  FileEvent.acquire filename "wt" ::
    (saveLines D).map FileEvent.writeLine ++ [FileEvent.release filename]

/-- The result and handle trace of `load_dataset(filename)` on a file with
the given content: one scoped acquisition in `"rt"` mode, the consumed
lines, one release — the release also happens when the body raises
(`StopIteration`, parse errors), because `with` closes on exception exit. -/
def load_dataset_run (filename content : String) :
    Except PyError Dataset × List FileEvent :=
  (load_dataset content,
    FileEvent.acquire filename "rt" ::
      (pythonLines content).map FileEvent.readLine ++ [FileEvent.release filename])

/-! ### Well-formedness predicates used by the round-trip theorems -/

/-- A field the csv layer transports verbatim: free of the comma delimiter,
of newlines and of double quotes (the characters that trigger csv
quoting, which the format does not contract for). -/
def plainField (l : List Char) : Bool :=
  decide (',' ∉ l) && decide ('\n' ∉ l) && decide ('\x22' ∉ l)

/-- A cell value consistent with its column's declared dtype and
transportable through the csv text: `int64` columns hold integers,
`object` columns hold `NaN` or a plain string that is not an NA
sentinel. -/
def goodValue (t : String) (v : Value) : Bool :=
  match t, v with
  | "int64", .vInt _ => true
  | "object", .vNaN => true
  | "object", .vStr s => plainField s.data && decide (s ∉ naTokens)
  | _, _ => false

/-- A schema the file format can represent and recover: at least one
column, duplicate-free plain column names, the last name not ending in
whitespace (`rstrip` would eat it), and supported dtype tags. -/
def validSchema (cols : List Column) : Prop :=
  cols ≠ [] ∧
  (cols.map (fun col => col.name)).Nodup ∧
  (∀ col ∈ cols, plainField col.name.data = true ∧ supportedTag col.dtype = true) ∧
  (cols.getLast?.all fun col => !endsInWs col.name.data) = true

/-- Rows the codec round-trips: rectangular, well-typed plain cells, and
no row whose serialized line is blank (`read_csv` would skip it). -/
def goodRows (cols : List Column) (rows : List (List Value)) : Prop :=
  ∀ r ∈ rows, r.length = cols.length ∧
    (∀ p ∈ List.zip cols r, goodValue p.1.dtype p.2 = true) ∧
    rowLine r ≠ ""

/-- Well-formed pair of header lines, as `load_dataset` sees them after
splitting: equal field counts, duplicate-free names, supported dtypes. -/
def wfHeaders (types columns : List String) : Prop :=
  types.length = columns.length ∧ columns.Nodup ∧
  ∀ t ∈ types, supportedTag t = true

/-- A data section whose non-blank rows all have the header's field count
and contain no quote character. -/
def wfBody (columns rest : List String) : Prop :=
  ∀ l ∈ rest, l ≠ "" →
    (strSplitOn ',' l).length = columns.length ∧ '\x22' ∉ l.data

instance (cols : List Column) : Decidable (validSchema cols) := by
  unfold validSchema
  infer_instance

instance (cols : List Column) (rows : List (List Value)) :
    Decidable (goodRows cols rows) := by
  unfold goodRows
  infer_instance

instance (types columns : List String) : Decidable (wfHeaders types columns) := by
  unfold wfHeaders
  infer_instance

instance (columns rest : List String) : Decidable (wfBody columns rest) := by
  unfold wfBody
  infer_instance
/-! ### Basic lemmas about the splitting machinery -/

theorem splitSep_ne_nil (c : Char) (l : List Char) : splitSep c l ≠ [] := by
  induction l with
  | nil => simp [splitSep]
  | cons x xs ih =>
    simp only [splitSep]
    split
    · simp
    · cases h : splitSep c xs with
      | nil => simp
      | cons p ps => simp

theorem splitSep_sepFree (c : Char) (l : List Char) (h : c ∉ l) :
    splitSep c l = [l] := by
  induction l with
  | nil => rfl
  | cons x xs ih =>
    simp only [List.mem_cons, not_or] at h
    have hx : ¬x = c := fun hc => h.1 hc.symm
    simp only [splitSep, if_neg hx, ih h.2]

theorem splitSep_append_sep (c : Char) (p r : List Char) (h : c ∉ p) :
    splitSep c (p ++ c :: r) = p :: splitSep c r := by
  induction p with
  | nil => simp [splitSep]
  | cons x xs ih =>
    simp only [List.mem_cons, not_or] at h
    have hx : ¬x = c := fun hc => h.1 hc.symm
    simp only [List.cons_append, splitSep, if_neg hx, List.append_eq, ih h.2]

theorem splitSep_joinSep (c : Char) (ps : List (List Char))
    (hne : ps ≠ []) (hfree : ∀ p ∈ ps, c ∉ p) :
    splitSep c (joinSep c ps) = ps := by
  induction ps with
  | nil => exact absurd rfl hne
  | cons p ps ih =>
    cases ps with
    | nil =>
      simp only [joinSep]
      exact splitSep_sepFree c p (hfree p (by simp))
    | cons q qs =>
      have : joinSep c (p :: q :: qs) = p ++ c :: joinSep c (q :: qs) := rfl
      rw [this, splitSep_append_sep c p _ (hfree p (by simp))]
      rw [ih (by simp) (fun r hr => hfree r (List.mem_cons_of_mem p hr))]

/-! ### Lemmas about decimal printing and parsing -/

theorem charToDigit_digitChar : ∀ d : Nat, d < 10 →
    charToDigit (Nat.digitChar d) = some d := by decide

theorem digitChar_isDigit : ∀ d : Nat, d < 10 →
    (Nat.digitChar d).isDigit = true := by decide

theorem natPrintAux_isDigit (fuel : Nat) : ∀ (n : Nat), n ≤ fuel →
    ∀ c ∈ natPrintAux fuel n, c.isDigit = true := by
  induction fuel with
  | zero => intro n _ c hc; simp [natPrintAux] at hc
  | succ fuel ih =>
    intro n hn c hc
    simp only [natPrintAux] at hc
    by_cases h0 : n = 0
    · simp [h0] at hc
    · rw [if_neg h0] at hc
      rcases List.mem_append.mp hc with h | h
      · exact ih (n / 10) (by omega) c h
      · simp only [List.mem_singleton] at h
        exact h ▸ digitChar_isDigit (n % 10) (Nat.mod_lt n (by omega))

theorem parseDigitsAux_append (l₁ l₂ : List Char) : ∀ acc : Nat,
    parseDigitsAux acc (l₁ ++ l₂) =
      match parseDigitsAux acc l₁ with
      | some a => parseDigitsAux a l₂
      | none => none := by
  induction l₁ with
  | nil => intro acc; rfl
  | cons c cs ih =>
    intro acc
    simp only [List.cons_append, parseDigitsAux]
    cases charToDigit c with
    | none => rfl
    | some d => exact ih (acc * 10 + d)

theorem parseDigitsAux_natPrintAux (fuel : Nat) : ∀ n acc : Nat, n ≤ fuel →
    parseDigitsAux acc (natPrintAux fuel n) =
      some (acc * 10 ^ (natPrintAux fuel n).length + n) := by
  induction fuel with
  | zero =>
    intro n acc hn
    have : n = 0 := by omega
    simp [this, natPrintAux, parseDigitsAux]
  | succ fuel ih =>
    intro n acc hn
    by_cases h0 : n = 0
    · simp [h0, natPrintAux, parseDigitsAux]
    · have hlt : n / 10 ≤ fuel := by
        have := Nat.div_lt_self (Nat.pos_of_ne_zero h0) (by norm_num : 1 < 10)
        omega
      simp only [natPrintAux, if_neg h0]
      rw [parseDigitsAux_append]
      rw [ih (n / 10) acc hlt]
      simp only [parseDigitsAux, charToDigit_digitChar (n % 10) (Nat.mod_lt n (by omega))]
      rw [List.length_append, List.length_singleton]
      congr 1
      have hdm := Nat.div_add_mod n 10
      ring_nf
      omega

theorem natPrintAux_ne_nil (fuel n : Nat) (hn : n ≤ fuel) (h0 : n ≠ 0) :
    natPrintAux fuel n ≠ [] := by
  cases fuel with
  | zero => omega
  | succ fuel => simp [natPrintAux, if_neg h0]

theorem parseNat_printNat (n : Nat) : parseNatChars (printNatChars n) = some n := by
  by_cases h0 : n = 0
  · simp [h0, printNatChars, parseNatChars, parseDigitsAux, charToDigit]
  · have hne := natPrintAux_ne_nil n n le_rfl h0
    simp only [printNatChars, if_neg h0]
    cases hl : natPrintAux n n with
    | nil => exact absurd hl hne
    | cons c cs =>
      have := parseDigitsAux_natPrintAux n n 0 le_rfl
      rw [hl] at this
      simpa [parseNatChars] using this

theorem printNatChars_isDigit (n : Nat) : ∀ c ∈ printNatChars n, c.isDigit = true := by
  intro c hc
  by_cases h0 : n = 0
  · simp [h0, printNatChars] at hc
    simp [hc]
  · simp only [printNatChars, if_neg h0] at hc
    exact natPrintAux_isDigit n n le_rfl c hc

theorem printNatChars_ne_nil (n : Nat) : printNatChars n ≠ [] := by
  by_cases h0 : n = 0
  · simp [h0, printNatChars]
  · simp only [printNatChars, if_neg h0]
    exact natPrintAux_ne_nil n n le_rfl h0

theorem isDigit_ne_minus (c : Char) (h : c.isDigit = true) : c ≠ '-' := by
  intro hc; subst hc; exact absurd h (by decide)

theorem parseInt_printInt (n : Int) : parseIntChars (printIntChars n) = some n := by
  by_cases hneg : n < 0
  · simp only [printIntChars, if_pos hneg, parseIntChars, parseNat_printNat,
      Option.pure_def, Option.bind_eq_bind, Option.some_bind, Option.map_some']
    congr 1
    omega
  · simp only [printIntChars, if_neg hneg]
    cases hl : printNatChars n.toNat with
    | nil => exact absurd hl (printNatChars_ne_nil n.toNat)
    | cons c cs =>
      have hcd : c.isDigit = true := printNatChars_isDigit n.toNat c (by rw [hl]; simp)
      have hcm : c ≠ '-' := isDigit_ne_minus c hcd
      have hp : parseNatChars (c :: cs) = some n.toNat := by
        rw [← hl]; exact parseNat_printNat n.toNat
      simp only [parseIntChars]
      split
      · rename_i heq
        rw [List.cons.injEq] at heq
        exact absurd heq.1 hcm
      · rw [hp]
        simp only [Option.pure_def, Option.bind_eq_bind, Option.some_bind,
          Option.map_some']
        congr 1
        omega

/-- Every character in the printed form of an integer is a digit or `'-'`. -/
theorem printIntChars_classify (n : Int) :
    ∀ c ∈ printIntChars n, c.isDigit = true ∨ c = '-' := by
  intro c hc
  by_cases hneg : n < 0
  · simp only [printIntChars, if_pos hneg, List.mem_cons] at hc
    rcases hc with h | h
    · exact Or.inr h
    · exact Or.inl (printNatChars_isDigit n.natAbs c h)
  · simp only [printIntChars, if_neg hneg] at hc
    exact Or.inl (printNatChars_isDigit n.toNat c hc)
/-! ### Strings as character lists -/

theorem data_mk (l : List Char) : (String.mk l).data = l := rfl

theorem mk_data (s : String) : String.mk s.data = s := by
  cases s; rfl

/-! ### Printed integers are never NA sentinels -/

theorem printIntChars_ne_nil (n : Int) : printIntChars n ≠ [] := by
  by_cases hneg : n < 0
  · simp [printIntChars, if_pos hneg]
  · simp only [printIntChars, if_neg hneg]
    exact printNatChars_ne_nil n.toNat

theorem naTokens_no_intLike : ∀ t ∈ naTokens,
    t.data = [] ∨ ∃ c ∈ t.data, (c.isDigit || c == '-') = false := by decide

theorem printInt_not_naToken (n : Int) : String.mk (printIntChars n) ∉ naTokens := by
  intro hm
  rcases naTokens_no_intLike _ hm with h | ⟨c, hc, hfalse⟩
  · exact printIntChars_ne_nil n h
  · rw [data_mk] at hc
    rcases printIntChars_classify n c hc with hd | hd
    · simp [hd] at hfalse
    · simp [hd] at hfalse

theorem isDigit_ne_comma (c : Char) (h : c.isDigit = true) : c ≠ ',' := by
  intro hc; subst hc; exact absurd h (by decide)

theorem isDigit_ne_newline (c : Char) (h : c.isDigit = true) : c ≠ '\n' := by
  intro hc; subst hc; exact absurd h (by decide)

theorem isDigit_not_pySpace (c : Char) (h : c.isDigit = true) :
    isPySpace c = false := by
  by_contra hcon
  have ht : isPySpace c = true := by
    cases hps : isPySpace c
    · exact absurd hps hcon
    · rfl
  have : c = ' ' ∨ c = '\t' ∨ c = '\n' ∨ c = '\r' ∨ c = '\x0b' ∨ c = '\x0c' := by
    simpa [isPySpace, or_assoc] using ht
  rcases this with rfl | rfl | rfl | rfl | rfl | rfl <;> exact absurd h (by decide)

theorem printIntChars_comma_free (n : Int) : ',' ∉ printIntChars n := by
  intro hm
  rcases printIntChars_classify n ',' hm with hd | hd
  · exact absurd hd (by decide)
  · exact absurd hd (by decide)

theorem printIntChars_newline_free (n : Int) : '\n' ∉ printIntChars n := by
  intro hm
  rcases printIntChars_classify n '\n' hm with hd | hd
  · exact absurd hd (by decide)
  · exact absurd hd (by decide)

theorem printIntChars_not_endsInWs (n : Int) : endsInWs (printIntChars n) = false := by
  unfold endsInWs
  cases hl : (printIntChars n).getLast? with
  | none => rfl
  | some ch =>
    have hmem : ch ∈ printIntChars n := List.mem_of_mem_getLast? (by rw [hl]; rfl)
    rcases printIntChars_classify n ch hmem with hd | hd
    · exact isDigit_not_pySpace ch hd
    · subst hd; rfl

/-! ### `rstrip`, line assembly and disassembly -/

theorem rstrip_of_not_endsInWs (l : List Char) (h : endsInWs l = false) :
    rstripChars l = l := by
  unfold rstripChars
  cases hl : l.reverse with
  | nil =>
    have : l = [] := by simpa using congrArg List.reverse hl
    simp [this]
  | cons x xs =>
    have hlast : l.getLast? = some x := by
      rw [← List.head?_reverse, hl]; rfl
    have hx : isPySpace x = false := by
      unfold endsInWs at h; rw [hlast] at h; exact h
    have hdw : List.dropWhile isPySpace (x :: xs) = x :: xs := by
      simp [List.dropWhile_cons, hx]
    rw [hdw, ← hl, List.reverse_reverse]

theorem endsInWs_append (l₁ l₂ : List Char) (h : l₂ ≠ []) :
    endsInWs (l₁ ++ l₂) = endsInWs l₂ := by
  unfold endsInWs
  rw [List.getLast?_append_of_ne_nil _ h]

theorem endsInWs_joinSep (c : Char) (hc : isPySpace c = false)
    (ps : List (List Char)) (hne : ps ≠ [])
    (hlast : ∀ p, ps.getLast? = some p → endsInWs p = false) :
    endsInWs (joinSep c ps) = false := by
  induction ps with
  | nil => exact absurd rfl hne
  | cons p ps ih =>
    cases ps with
    | nil =>
      simp only [joinSep]
      exact hlast p rfl
    | cons q qs =>
      have hj : joinSep c (p :: q :: qs) = p ++ c :: joinSep c (q :: qs) := rfl
      rw [hj]
      have h2 := ih (by simp)
        (fun r hr => hlast r (by rw [List.getLast?_cons_cons]; exact hr))
      cases hr : joinSep c (q :: qs) with
      | nil =>
        rw [endsInWs_append p [c] (by simp)]
        simpa [endsInWs] using hc
      | cons y ys =>
        rw [endsInWs_append _ (c :: y :: ys) (by simp)]
        have : endsInWs (c :: y :: ys) = endsInWs (y :: ys) := by
          have := endsInWs_append [c] (y :: ys) (by simp)
          simpa using this
        rw [this, ← hr]
        exact h2

theorem mem_joinSep (c : Char) (ps : List (List Char)) (x : Char)
    (hx : x ∈ joinSep c ps) : x = c ∨ ∃ p ∈ ps, x ∈ p := by
  induction ps with
  | nil => simp [joinSep] at hx
  | cons p ps ih =>
    cases ps with
    | nil =>
      simp only [joinSep] at hx
      exact Or.inr ⟨p, by simp, hx⟩
    | cons q qs =>
      have hj : joinSep c (p :: q :: qs) = p ++ c :: joinSep c (q :: qs) := rfl
      rw [hj] at hx
      rcases List.mem_append.mp hx with h | h
      · exact Or.inr ⟨p, by simp, h⟩
      · rcases List.mem_cons.mp h with h | h
        · exact Or.inl h
        · rcases ih h with h | ⟨r, hr, hxr⟩
          · exact Or.inl h
          · exact Or.inr ⟨r, List.mem_cons_of_mem p hr, hxr⟩

theorem pythonLines_mkFile (ls : List String)
    (h : ∀ l ∈ ls, '\n' ∉ l.data) :
    pythonLines (mkFile ls) = ls := by
  unfold pythonLines mkFile
  rw [data_mk]
  rw [splitSep_joinSep '\n' (ls.map String.data ++ [[]]) (by simp)
    (by
      intro p hp
      rcases List.mem_append.mp hp with hp | hp
      · rcases List.mem_map.mp hp with ⟨s, hs, rfl⟩
        exact h s hs
      · simp only [List.mem_singleton] at hp
        subst hp; simp)]
  rw [List.getLast?_concat, if_pos rfl, List.dropLast_concat]
  rw [List.map_map]
  have hcomp : String.mk ∘ String.data = id := funext mk_data
  rw [hcomp, List.map_id]

/-! ### Splitting a joined string; the dtype dict -/

theorem strSplitOn_strJoin (c : Char) (parts : List String) (hne : parts ≠ [])
    (hfree : ∀ p ∈ parts, c ∉ p.data) :
    strSplitOn c (strJoin c parts) = parts := by
  unfold strSplitOn strJoin
  rw [data_mk, splitSep_joinSep c _ (by simpa using hne)
    (by
      intro p hp
      rcases List.mem_map.mp hp with ⟨s, hs, rfl⟩
      exact hfree s hs)]
  rw [List.map_map]
  have hcomp : String.mk ∘ String.data = id := funext mk_data
  rw [hcomp, List.map_id]

theorem dictLookup_cons_self (k v : String) (d : List (String × String)) :
    dictLookup ((k, v) :: d) k = some v := by
  simp [dictLookup]

theorem dictLookup_cons_ne (k k' v : String) (d : List (String × String))
    (h : k' ≠ k) : dictLookup ((k, v) :: d) k' = dictLookup d k' := by
  simp [dictLookup, List.find?_cons, h, Ne.symm h]

theorem map_dictLookup_zip (ks : List String) : ∀ vs : List String,
    ks.Nodup → ks.length = vs.length →
    ks.map (fun k => dictLookup (List.zip ks vs) k) = vs.map some := by
  induction ks with
  | nil =>
    intro vs _ hlen
    cases vs with
    | nil => rfl
    | cons v vs => simp at hlen
  | cons k ks ih =>
    intro vs hnd hlen
    cases vs with
    | nil => simp at hlen
    | cons v vs =>
      simp only [List.zip_cons_cons, List.map_cons]
      rw [dictLookup_cons_self]
      have hk : k ∉ ks := (List.nodup_cons.mp hnd).1
      have hmap : ks.map (fun a => dictLookup ((k, v) :: List.zip ks vs) a) =
          ks.map (fun a => dictLookup (List.zip ks vs) a) := by
        apply List.map_congr_left
        intro a ha
        exact dictLookup_cons_ne k a v _ (fun hak => hk (hak ▸ ha))
      rw [hmap, ih vs (List.nodup_cons.mp hnd).2 (by simpa using hlen)]

/-! ### Cell-level round trip -/

theorem plainField_elim (l : List Char) (h : plainField l = true) :
    ',' ∉ l ∧ '\n' ∉ l ∧ '\x22' ∉ l := by
  simp only [plainField, Bool.and_eq_true, decide_eq_true_eq] at h
  exact ⟨h.1.1, h.1.2, h.2⟩

theorem supportedTag_cases (t : String) (h : supportedTag t = true) :
    t = "int64" ∨ t = "object" := by
  simpa [supportedTag] using h

theorem coerce_int_roundtrip (n : Int) :
    coerceField (some "int64") (String.mk (printIntChars n)) = .ok (.vInt n) := by
  have hstep : coerceField (some "int64") (String.mk (printIntChars n)) =
      if String.mk (printIntChars n) ∈ naTokens then .error .typeCoercionError
      else
        match parseIntChars (String.mk (printIntChars n)).data with
        | some m => .ok (.vInt m)
        | none => .error .typeCoercionError := rfl
  rw [hstep, if_neg (printInt_not_naToken n), data_mk, parseInt_printInt]

theorem coerce_str_roundtrip (s : String) (hna : s ∉ naTokens) :
    coerceField (some "object") s = .ok (.vStr s) := by
  have hstep : coerceField (some "object") s =
      if s ∈ naTokens then .ok .vNaN else .ok (.vStr s) := rfl
  rw [hstep, if_neg hna]

theorem coerce_nan_roundtrip : coerceField (some "object") "" = .ok .vNaN := by
  decide

/-- A good cell coerces back to itself from its printed field. -/
theorem coerce_goodValue (t : String) (v : Value) (h : goodValue t v = true) :
    coerceField (some t) (valueField v) = .ok v := by
  unfold goodValue at h
  split at h
  · exact coerce_int_roundtrip _
  · exact coerce_nan_roundtrip
  · rename_i s
    simp only [Bool.and_eq_true, decide_eq_true_eq] at h
    exact coerce_str_roundtrip s h.2
  · exact absurd h (by simp)

/-- A good cell's printed field is comma-, newline- and quote-free. -/
theorem goodValue_field_plain (t : String) (v : Value) (h : goodValue t v = true) :
    plainField (valueField v).data = true := by
  unfold goodValue at h
  split at h
  · rename_i n
    simp only [valueField, data_mk, plainField, Bool.and_eq_true, decide_eq_true_eq]
    refine ⟨⟨printIntChars_comma_free n, printIntChars_newline_free n⟩, ?_⟩
    intro hm
    rcases printIntChars_classify n '\x22' hm with hd | hd
    · exact absurd hd (by decide)
    · exact absurd hd (by decide)
  · simp [valueField, plainField]
  · rename_i s
    simp only [Bool.and_eq_true, decide_eq_true_eq] at h
    simpa [valueField] using h.1
  · exact absurd h (by simp)

/-! ### Row-level round trip -/

theorem parseRow_roundtrip (cols : List Column) : ∀ r : List Value,
    r.length = cols.length →
    (∀ p ∈ List.zip cols r, goodValue p.1.dtype p.2 = true) →
    parseRow (cols.map (fun col => some col.dtype)) (r.map valueField) = .ok r := by
  induction cols with
  | nil =>
    intro r hlen _
    cases r with
    | nil => rfl
    | cons v vs => simp at hlen
  | cons col cols ih =>
    intro r hlen hval
    cases r with
    | nil => simp at hlen
    | cons v vs =>
      have hv : goodValue col.dtype v = true := hval (col, v) (by simp)
      have hrest : ∀ p ∈ List.zip cols vs, goodValue p.1.dtype p.2 = true := by
        intro p hp
        exact hval p (by simp [List.zip_cons_cons, hp])
      have hcell := coerce_goodValue col.dtype v hv
      simp only [List.map_cons, parseRow, hcell, ih vs (by simpa using hlen) hrest]
      rfl

/-- Every printed field of a good row is plain. -/
theorem rowFields_plain (cols : List Column) (r : List Value)
    (hlen : r.length = cols.length)
    (hval : ∀ p ∈ List.zip cols r, goodValue p.1.dtype p.2 = true)
    (f : String) (hf : f ∈ r.map valueField) : plainField f.data = true := by
  rcases List.mem_map.mp hf with ⟨v, hv, rfl⟩
  have hvz : v ∈ (List.zip cols r).map Prod.snd := by
    rw [List.map_snd_zip cols r (le_of_eq hlen)]
    exact hv
  rcases List.mem_map.mp hvz with ⟨p, hp, hpv⟩
  have hpl := goodValue_field_plain p.1.dtype p.2 (hval p hp)
  rw [hpv] at hpl
  exact hpl

theorem parseRows_roundtrip (cols : List Column) (rows : List (List Value))
    (hgood : goodRows cols rows) :
    parseRows (cols.map (fun col => some col.dtype)) (rows.map rowLine) = .ok rows := by
  induction rows with
  | nil => rfl
  | cons r rs ih =>
    have h1 := hgood r (by simp)
    have hrest : goodRows cols rs := fun r' hr' => hgood r' (by simp [hr'])
    have hrne : r ≠ [] := by
      intro h0
      exact h1.2.2 (by rw [h0]; rfl)
    have hsplit : strSplitOn ',' (rowLine r) = r.map valueField := by
      unfold rowLine
      apply strSplitOn_strJoin
      · simpa using hrne
      · intro f hf
        exact (plainField_elim _ (rowFields_plain cols r h1.1 h1.2.1 f hf)).1
    simp only [List.map_cons, parseRows]
    rw [if_neg h1.2.2, hsplit, parseRow_roundtrip cols r h1.1 h1.2.1, ih hrest]
    rfl

/-! ### The lines `save_dataset` writes are newline-free for good data -/

theorem strJoin_no_mem (c x : Char) (hx : x ≠ c) (parts : List String)
    (hfree : ∀ p ∈ parts, x ∉ p.data) : x ∉ (strJoin c parts).data := by
  unfold strJoin
  rw [data_mk]
  intro hm
  rcases mem_joinSep c _ x hm with h | ⟨p, hp, hxp⟩
  · exact hx h
  · rcases List.mem_map.mp hp with ⟨s, hs, rfl⟩
    exact hfree s hs hxp

theorem saveLines_newline_free (D : Dataset)
    (hcols : ∀ col ∈ D.cols,
      plainField col.name.data = true ∧ supportedTag col.dtype = true)
    (hg : ∀ r ∈ D.rows, r.length = D.cols.length ∧
      ∀ p ∈ List.zip D.cols r, goodValue p.1.dtype p.2 = true) :
    ∀ l ∈ saveLines D, '\n' ∉ l.data := by
  intro l hl
  simp only [saveLines, List.mem_cons] at hl
  rcases hl with rfl | rfl | hl
  · unfold typeLine
    apply strJoin_no_mem ',' '\n' (by decide)
    intro p hp
    rcases List.mem_map.mp hp with ⟨col, hc, rfl⟩
    rcases supportedTag_cases col.dtype (hcols col hc).2 with h | h <;> rw [h] <;> decide
  · unfold nameLine
    apply strJoin_no_mem ',' '\n' (by decide)
    intro p hp
    rcases List.mem_map.mp hp with ⟨col, hc, rfl⟩
    exact (plainField_elim _ (hcols col hc).1).2.1
  · rcases List.mem_map.mp hl with ⟨r, hr, rfl⟩
    have h1 := hg r hr
    unfold rowLine
    apply strJoin_no_mem ',' '\n' (by decide)
    intro f hf
    exact (plainField_elim _ (rowFields_plain D.cols r h1.1 h1.2 f hf)).2.1

/-! ### The master round-trip theorem -/

theorem load_dataset_cons (t c : String) (rest : List String) (s : String)
    (h : pythonLines s = t :: c :: rest) :
    load_dataset s =
      (if (strSplitOn ',' (strRstrip c)).Nodup then
        if (List.zip (strSplitOn ',' (strRstrip c))
            (strSplitOn ',' (strRstrip t))).all (fun p => supportedTag p.2) then
          match parseRows ((strSplitOn ',' (strRstrip c)).map (fun n =>
              dictLookup (List.zip (strSplitOn ',' (strRstrip c))
                (strSplitOn ',' (strRstrip t))) n)) rest with
          | .ok rows =>
            .ok ⟨List.zipWith (fun n t? => ⟨n, t?.getD "object"⟩)
              (strSplitOn ',' (strRstrip c))
              ((strSplitOn ',' (strRstrip c)).map (fun n =>
                dictLookup (List.zip (strSplitOn ',' (strRstrip c))
                  (strSplitOn ',' (strRstrip t))) n)), rows⟩
          | .error e => .error e
        else .error .badDtypeError
      else .error .duplicateNamesError) := by
  unfold load_dataset
  rw [h]

theorem zipWith_mk_cols (cols : List Column) :
    List.zipWith (fun n t? => Column.mk n (t?.getD "object"))
      (cols.map (fun col => col.name)) (cols.map (fun col => some col.dtype)) =
      cols := by
  induction cols with
  | nil => rfl
  | cons col cols ih =>
    simp only [List.map_cons, List.zipWith_cons_cons, ih, Option.getD_some]

theorem load_save_roundtrip (D : Dataset) (hs : validSchema D.cols)
    (hg : goodRows D.cols D.rows) :
    load_dataset (save_dataset D) = .ok D := by
  obtain ⟨hne, hnd, hcols, hlast⟩ := hs
  have hlines : pythonLines (save_dataset D) =
      typeLine D.cols :: nameLine D.cols :: D.rows.map rowLine :=
    pythonLines_mkFile _ (saveLines_newline_free D hcols
      (fun r hr => ⟨(hg r hr).1, (hg r hr).2.1⟩))
  have hw1 : endsInWs (typeLine D.cols).data = false := by
    unfold typeLine strJoin
    rw [data_mk]
    apply endsInWs_joinSep ',' (by decide)
    · simpa using hne
    · intro p hp
      rw [List.getLast?_map, List.getLast?_map] at hp
      cases hgl : D.cols.getLast? with
      | none => rw [hgl] at hp; simp at hp
      | some col =>
        rw [hgl] at hp
        simp only [Option.map_some'] at hp
        injection hp with hp2
        have hcm : col ∈ D.cols := List.mem_of_mem_getLast? (by rw [hgl]; rfl)
        rcases supportedTag_cases col.dtype (hcols col hcm).2 with h | h <;>
          rw [← hp2, h] <;> decide
  have hw2 : endsInWs (nameLine D.cols).data = false := by
    unfold nameLine strJoin
    rw [data_mk]
    apply endsInWs_joinSep ',' (by decide)
    · simpa using hne
    · intro p hp
      rw [List.getLast?_map, List.getLast?_map] at hp
      cases hgl : D.cols.getLast? with
      | none => rw [hgl] at hp; simp at hp
      | some col =>
        rw [hgl] at hp
        simp only [Option.map_some'] at hp
        injection hp with hp2
        rw [hgl] at hlast
        simp only [Option.all_some] at hlast
        rw [← hp2]
        simpa using hlast
  have hr1 : strRstrip (typeLine D.cols) = typeLine D.cols := by
    unfold strRstrip
    rw [rstrip_of_not_endsInWs _ hw1, mk_data]
  have hr2 : strRstrip (nameLine D.cols) = nameLine D.cols := by
    unfold strRstrip
    rw [rstrip_of_not_endsInWs _ hw2, mk_data]
  have hsplit1 : strSplitOn ',' (typeLine D.cols) =
      D.cols.map (fun col => col.dtype) := by
    unfold typeLine
    apply strSplitOn_strJoin
    · simpa using hne
    · intro p hp
      rcases List.mem_map.mp hp with ⟨col, hc, rfl⟩
      rcases supportedTag_cases col.dtype (hcols col hc).2 with h | h <;>
        rw [h] <;> decide
  have hsplit2 : strSplitOn ',' (nameLine D.cols) =
      D.cols.map (fun col => col.name) := by
    unfold nameLine
    apply strSplitOn_strJoin
    · simpa using hne
    · intro p hp
      rcases List.mem_map.mp hp with ⟨col, hc, rfl⟩
      exact (plainField_elim _ (hcols col hc).1).1
  have hall : (List.zip (D.cols.map fun col => col.name)
      (D.cols.map fun col => col.dtype)).all (fun p => supportedTag p.2) = true := by
    rw [List.all_eq_true]
    intro p hp
    obtain ⟨a, b⟩ := p
    have h2 := (List.of_mem_zip hp).2
    rcases List.mem_map.mp h2 with ⟨col, hc, hcd⟩
    simpa [← hcd] using (hcols col hc).2
  have htags : (D.cols.map fun col => col.name).map
      (fun n => dictLookup (List.zip (D.cols.map fun col => col.name)
        (D.cols.map fun col => col.dtype)) n) =
      (D.cols.map fun col => col.dtype).map some :=
    map_dictLookup_zip _ _ hnd (by simp)
  have hmaps : (D.cols.map fun col => col.dtype).map some =
      D.cols.map (fun col => some col.dtype) := by
    rw [List.map_map]
    rfl
  rw [load_dataset_cons _ _ _ _ hlines, hr1, hr2, hsplit1, hsplit2]
  rw [if_pos hnd, if_pos hall, htags, hmaps,
    parseRows_roundtrip D.cols D.rows hg, zipWith_mk_cols]

/-! ### Error analysis of the data section for well-formed headers -/

theorem coerceField_supported (tag f : String) (h : supportedTag tag = true) :
    (∃ v, coerceField (some tag) f = .ok v) ∨
    coerceField (some tag) f = .error .typeCoercionError := by
  rcases supportedTag_cases tag h with rfl | rfl
  · have hstep : coerceField (some "int64") f =
        if f ∈ naTokens then .error .typeCoercionError
        else
          match parseIntChars f.data with
          | some m => .ok (.vInt m)
          | none => .error .typeCoercionError := rfl
    by_cases hf : f ∈ naTokens
    · right; rw [hstep, if_pos hf]
    · rw [hstep, if_neg hf]
      cases hp : parseIntChars f.data with
      | some m => exact Or.inl ⟨.vInt m, rfl⟩
      | none => exact Or.inr rfl
  · have hstep : coerceField (some "object") f =
        if f ∈ naTokens then .ok .vNaN else .ok (.vStr f) := rfl
    by_cases hf : f ∈ naTokens
    · rw [hstep, if_pos hf]; exact Or.inl ⟨.vNaN, rfl⟩
    · rw [hstep, if_neg hf]; exact Or.inl ⟨.vStr f, rfl⟩

theorem parseRow_supported (types : List String) : ∀ fields : List String,
    fields.length = types.length →
    (∀ t ∈ types, supportedTag t = true) →
    (∃ vs, parseRow (types.map some) fields = .ok vs) ∨
    parseRow (types.map some) fields = .error .typeCoercionError := by
  induction types with
  | nil =>
    intro fields hlen _
    cases fields with
    | nil => exact Or.inl ⟨[], rfl⟩
    | cons f fs => simp at hlen
  | cons t ts ih =>
    intro fields hlen hsupp
    cases fields with
    | nil => simp at hlen
    | cons f fs =>
      rcases coerceField_supported t f (hsupp t (by simp)) with ⟨v, hv⟩ | hv
      · rcases ih fs (by simpa using hlen) (fun u hu => hsupp u (List.mem_cons_of_mem _ hu)) with
          ⟨vs, hvs⟩ | hvs
        · exact Or.inl ⟨v :: vs, by simp only [List.map_cons, parseRow, hv, hvs]; rfl⟩
        · right; simp only [List.map_cons, parseRow, hv, hvs]; rfl
      · right; simp only [List.map_cons, parseRow, hv]; rfl

theorem parseRow_bad (types : List String) : ∀ fields : List String,
    fields.length = types.length →
    (∀ t ∈ types, supportedTag t = true) →
    (∃ (i : Nat) (tag field : String), types[i]? = some tag ∧
      fields[i]? = some field ∧
      coerceField (some tag) field = .error .typeCoercionError) →
    parseRow (types.map some) fields = .error .typeCoercionError := by
  induction types with
  | nil =>
    intro fields _ _ hbad
    rcases hbad with ⟨i, tag, field, hti, _, _⟩
    simp at hti
  | cons t ts ih =>
    intro fields hlen hsupp hbad
    cases fields with
    | nil => simp at hlen
    | cons f fs =>
      rcases hbad with ⟨i, tag, field, hti, hfi, hbadc⟩
      cases i with
      | zero =>
        simp only [List.getElem?_cons_zero, Option.some.injEq] at hti hfi
        subst hti; subst hfi
        simp only [List.map_cons, parseRow, hbadc]
        rfl
      | succ i =>
        have hrec := ih fs (by simpa using hlen)
          (fun u hu => hsupp u (List.mem_cons_of_mem _ hu))
          ⟨i, tag, field, by simpa using hti, by simpa using hfi, hbadc⟩
        rcases coerceField_supported t f (hsupp t (by simp)) with ⟨v, hv⟩ | hv
        · simp only [List.map_cons, parseRow, hv, hrec]; rfl
        · simp only [List.map_cons, parseRow, hv]; rfl

theorem parseRows_bad (types : List String) : ∀ rest : List String,
    (∀ t ∈ types, supportedTag t = true) →
    (∀ l ∈ rest, l ≠ "" → (strSplitOn ',' l).length = types.length) →
    (∃ l ∈ rest, l ≠ "" ∧ ∃ (i : Nat) (tag field : String), types[i]? = some tag ∧
      (strSplitOn ',' l)[i]? = some field ∧
      coerceField (some tag) field = .error .typeCoercionError) →
    parseRows (types.map some) rest = .error .typeCoercionError := by
  intro rest
  induction rest with
  | nil =>
    intro _ _ hbad
    rcases hbad with ⟨l, hl, _⟩
    simp at hl
  | cons l ls ih =>
    intro hsupp hwidth hbad
    by_cases hblank : l = ""
    · subst hblank
      simp only [parseRows, if_pos rfl]
      rcases hbad with ⟨l', hl', hne', hbad'⟩
      rcases List.mem_cons.mp hl' with rfl | hmem
      · exact absurd rfl hne'
      · exact ih hsupp (fun u hu => hwidth u (List.mem_cons_of_mem _ hu))
          ⟨l', hmem, hne', hbad'⟩
    · simp only [parseRows, if_neg hblank]
      rcases hbad with ⟨l', hl', hne', hbad'⟩
      rcases List.mem_cons.mp hl' with rfl | hmem
      · rw [parseRow_bad types (strSplitOn ',' l') (hwidth l' (by simp) hne') hsupp hbad']
        rfl
      · rcases parseRow_supported types (strSplitOn ',' l)
          (hwidth l (by simp) hblank) hsupp with ⟨vs, hvs⟩ | hvs
        · rw [hvs, ih hsupp (fun u hu => hwidth u (List.mem_cons_of_mem _ hu))
            ⟨l', hmem, hne', hbad'⟩]
          rfl
        · rw [hvs]
          rfl

/-! ### First-match characterization of the guarded lookups -/

theorem find?_eq_head_filter {α : Type} (p : α → Bool) (l : List α) :
    l.find? p = (l.filter p).head? := by
  induction l with
  | nil => rfl
  | cons x xs ih =>
    cases h : p x
    · rw [List.find?_cons_of_neg _ (by simp [h]), List.filter_cons_of_neg (by simp [h]), ih]
    · rw [List.find?_cons_of_pos _ h, List.filter_cons_of_pos h, List.head?_cons]

theorem guarded_first {α β : Type} (p : α → Bool) (f : α → β) (l : List α) :
    (if (l.filter p).isEmpty then (.ok none : Except PyError (Option β))
     else do
       let v ← valuesGet0 ((l.filter p).map f)
       .ok (some v)) = .ok ((l.find? p).map f) := by
  rw [find?_eq_head_filter]
  cases hf : l.filter p with
  | nil => rfl
  | cons x xs =>
    rw [if_neg (by simp)]
    rfl

/-! ## The claims -/

/-- Claim C1 (counterexample): the round trip is not the identity for every
dataset whose string values merely avoid commas and newlines.  The empty
string (which contains neither) is written as an empty csv field and read
back as `NaN`, so `load_dataset ∘ save_dataset` changes the dataset. -/
theorem c1_counterexample :
    load_dataset (save_dataset
      ⟨[⟨"a", "object"⟩, ⟨"b", "object"⟩], [[.vStr "", .vStr "x"]]⟩) =
      .ok ⟨[⟨"a", "object"⟩, ⟨"b", "object"⟩], [[.vNaN, .vStr "x"]]⟩ ∧
    (⟨[⟨"a", "object"⟩, ⟨"b", "object"⟩], [[Value.vNaN, Value.vStr "x"]]⟩ : Dataset) ≠
      ⟨[⟨"a", "object"⟩, ⟨"b", "object"⟩], [[Value.vStr "", Value.vStr "x"]]⟩ := by
  constructor
  · decide
  · decide

/-- Claim C1 (amended): for every dataset with a valid schema (nonempty,
duplicate-free column names free of comma/newline/quote, last name not
ending in whitespace, int64/object dtypes) whose rows are rectangular and
well-typed, whose string values are plain and not NA sentinels, and none of
whose rows serializes to a blank line, loading the saved file restores the
dataset exactly — column order, names, dtypes, row count and cell values. -/
theorem c1_roundtrip_amended (D : Dataset) (hs : validSchema D.cols)
    (hg : goodRows D.cols D.rows) :
    load_dataset (save_dataset D) = .ok D :=
  load_save_roundtrip D hs hg

/-- Claim C1 (witness): the spec's own concrete scenario round-trips. -/
theorem c1_witness :
    load_dataset (save_dataset ⟨[⟨"id", "int64"⟩, ⟨"name", "object"⟩],
      [[.vInt 1, .vStr "Helsinki"], [.vInt 2, .vStr "Turku"]]⟩) =
      .ok ⟨[⟨"id", "int64"⟩, ⟨"name", "object"⟩],
      [[.vInt 1, .vStr "Helsinki"], [.vInt 2, .vStr "Turku"]]⟩ :=
  c1_roundtrip_amended
    ⟨[⟨"id", "int64"⟩, ⟨"name", "object"⟩],
      [[.vInt 1, .vStr "Helsinki"], [.vInt 2, .vStr "Turku"]]⟩
    (by constructor
        · decide
        · refine ⟨by decide, by decide, by decide⟩)
    (by intro r hr
        fin_cases hr <;> refine ⟨by decide, by decide, by decide⟩)

/-- Claim C2 (counterexample): `load_dataset` does not fail when the
type-header and the name-header have different field counts — the two
headers are silently zipped to the shorter one and a dataset is returned. -/
theorem c2_counterexample :
    load_dataset "int64,int64\na\n7\n" = .ok ⟨[⟨"a", "int64"⟩], [[.vInt 7]]⟩ := by
  decide

/-- Claim C2 (amended): `load_dataset` fails (with the end-of-iteration
error of `next`) when the file has fewer than two lines; but a type header
longer than the name header is silently truncated by `dict(zip(...))` and
the file loads, and a data row with fewer fields than the header is padded
with missing values rather than rejected. -/
theorem c2_amended :
    (∀ s : String, (pythonLines s).length < 2 →
      load_dataset s = .error .stopIteration) ∧
    load_dataset "int64,int64\na\n7\n" = .ok ⟨[⟨"a", "int64"⟩], [[.vInt 7]]⟩ ∧
    load_dataset "object,object\na,b\nx\n" =
      .ok ⟨[⟨"a", "object"⟩, ⟨"b", "object"⟩], [[.vStr "x", .vNaN]]⟩ := by
  refine ⟨?_, by decide, by decide⟩
  intro s h
  unfold load_dataset
  cases hp : pythonLines s with
  | nil => rfl
  | cons a t =>
    cases t with
    | nil => rfl
    | cons b t2 =>
      rw [hp] at h
      simp at h
      omega

/-- Claim C2 (witness): a one-line file makes `load_dataset` fail. -/
theorem c2_witness : load_dataset "int64" = .error .stopIteration :=
  c2_amended.1 "int64" (by decide)

/-- Claim C3 (counterexample): `get_name_by_mid` raises `IndexError` on a
key with no matching row instead of returning `None` — the source indexes
`.values[0]` without an emptiness guard. -/
theorem c3_counterexample :
    get_name_by_mid 999 [] = .error .indexError := by decide

/-- Claim C3 (amended): the four guarded lookups return `None` on a miss
and never raise; `get_name_by_mid` instead raises `IndexError` on a miss.
(`get_rid_by_name` additionally special-cases the key "WHOLE COUNTRY",
which returns `0` regardless of the table.) -/
theorem c3_amended :
    (∀ (mid : Int) (m : List MappingRow),
      (∀ r ∈ m, r.municipality_id ≠ mid) → get_rid_by_mid mid m = .ok none) ∧
    (∀ (name : String) (m : List MappingRow), name ≠ "WHOLE COUNTRY" →
      (∀ r ∈ m, r.region_fi ≠ name ∧ r.region_sv ≠ name ∧ r.region_en ≠ name) →
      get_rid_by_name name m = .ok none) ∧
    (∀ (name : String) (m : List MappingRow),
      (∀ r ∈ m, r.municipality_fi ≠ name ∧ r.municipality_sv ≠ name ∧
        r.municipality_en ≠ name) →
      get_mid_by_name name m = .ok none) ∧
    (∀ (P : Type) (coords : P) (gm : GeoMap P),
      (∀ rg ∈ gm.regions, rg.containsPoint (gm.toMapCrs coords) = false) →
      get_mid_by_coords coords gm = none) ∧
    (∀ (mid : Int) (m : List MappingRow),
      (∀ r ∈ m, r.municipality_id ≠ mid) →
      get_name_by_mid mid m = .error .indexError) := by
  refine ⟨?_, ?_, ?_, ?_, ?_⟩
  · intro mid m h
    have hf : m.filter (fun r => r.municipality_id == mid) = [] := by
      rw [List.filter_eq_nil_iff]
      intro r hr
      simpa using h r hr
    simp [get_rid_by_mid, hf]
  · intro name m hwc h
    unfold get_rid_by_name
    rw [if_neg (by simpa using hwc)]
    have hf : m.filter (fun r => r.region_fi == name || r.region_sv == name ||
        r.region_en == name) = [] := by
      rw [List.filter_eq_nil_iff]
      intro r hr
      have := h r hr
      simp only [Bool.or_eq_true, beq_iff_eq, not_or]
      exact ⟨⟨this.1, this.2.1⟩, this.2.2⟩
    simp [hf]
  · intro name m h
    have hf : m.filter (fun r => r.municipality_fi == name ||
        r.municipality_sv == name || r.municipality_en == name) = [] := by
      rw [List.filter_eq_nil_iff]
      intro r hr
      have := h r hr
      simp only [Bool.or_eq_true, beq_iff_eq, not_or]
      exact ⟨⟨this.1, this.2.1⟩, this.2.2⟩
    simp [get_mid_by_name, hf]
  · intro P coords gm h
    have hf : gm.regions.find? (fun rg => rg.containsPoint (gm.toMapCrs coords)) =
        none := by
      rw [List.find?_eq_none]
      intro rg hrg
      simp [h rg hrg]
    simp only [get_mid_by_coords]
    rw [hf]
    rfl
  · intro mid m h
    unfold get_name_by_mid
    have hf : m.filter (fun r => r.municipality_id == mid) = [] := by
      rw [List.filter_eq_nil_iff]
      intro r hr
      simpa using h r hr
    rw [hf]
    rfl

/-- Claim C3 (witness): each lookup evaluated on a missing key. -/
theorem c3_witness :
    get_rid_by_mid 999 [] = .ok none ∧
    get_rid_by_name "Nowhere" [] = .ok none ∧
    get_mid_by_name "Nowhere" [] = .ok none ∧
    get_mid_by_coords (0 : Int) ⟨id, []⟩ = none ∧
    get_name_by_mid 999 [] = .error .indexError :=
  ⟨c3_amended.1 999 [] (by simp),
   c3_amended.2.1 "Nowhere" [] (by decide) (by simp),
   c3_amended.2.2.1 "Nowhere" [] (by simp),
   c3_amended.2.2.2.1 Int 0 ⟨id, []⟩ (by simp),
   c3_amended.2.2.2.2 999 [] (by simp)⟩

/-- Claim C4 (counterexample): the "exactly 2 + R lines" guarantee fails
for a dataset whose column name embeds a newline, even though all values
are newline-free: the name header then spans two physical lines. -/
theorem c4_counterexample :
    (pythonLines (save_dataset
      ⟨[⟨"a\nb", "object"⟩], [[Value.vStr "x"]]⟩)).length = 4 ∧
    2 + (Dataset.mk [⟨"a\nb", "object"⟩] [[Value.vStr "x"]]).rows.length = 3 := by
  constructor
  · decide
  · decide

/-- Claim C4 (amended): for every nonempty-schema dataset whose column
names and string values are free of comma, newline and quote characters
(the characters the csv layer cannot transport verbatim) and whose rows are
rectangular and well-typed, `save_dataset` writes the dtype tags joined by
commas as the first line, the column names joined by commas as the second,
then one comma-joined line per row with no row index — so the file has
exactly `2 + R` lines. -/
theorem c4_amended (D : Dataset) (_hne : D.cols ≠ [])
    (hcols : ∀ col ∈ D.cols,
      plainField col.name.data = true ∧ supportedTag col.dtype = true)
    (hrows : ∀ r ∈ D.rows, r.length = D.cols.length ∧
      ∀ p ∈ List.zip D.cols r, goodValue p.1.dtype p.2 = true) :
    pythonLines (save_dataset D) =
      typeLine D.cols :: nameLine D.cols :: D.rows.map rowLine ∧
    (pythonLines (save_dataset D)).length = 2 + D.rows.length := by
  have h1 : pythonLines (save_dataset D) = saveLines D :=
    pythonLines_mkFile _ (saveLines_newline_free D hcols hrows)
  refine ⟨h1, ?_⟩
  rw [h1]
  simp only [saveLines, List.length_cons, List.length_map]
  omega

/-- Claim C4 (witness): the layout on the spec's concrete scenario. -/
theorem c4_witness :
    pythonLines (save_dataset ⟨[⟨"id", "int64"⟩, ⟨"name", "object"⟩],
      [[.vInt 1, .vStr "Helsinki"], [.vInt 2, .vStr "Turku"]]⟩) =
      typeLine [⟨"id", "int64"⟩, ⟨"name", "object"⟩] ::
        nameLine [⟨"id", "int64"⟩, ⟨"name", "object"⟩] ::
        List.map rowLine
          [[Value.vInt 1, Value.vStr "Helsinki"],
           [Value.vInt 2, Value.vStr "Turku"]] ∧
    (pythonLines (save_dataset ⟨[⟨"id", "int64"⟩, ⟨"name", "object"⟩],
      [[.vInt 1, .vStr "Helsinki"], [.vInt 2, .vStr "Turku"]]⟩)).length = 2 + 2 :=
  c4_amended
    ⟨[⟨"id", "int64"⟩, ⟨"name", "object"⟩],
      [[.vInt 1, .vStr "Helsinki"], [.vInt 2, .vStr "Turku"]]⟩
    (by decide) (by decide)
    (by intro r hr; fin_cases hr <;> exact ⟨by decide, by decide⟩)

/-- Claim C5: saving a zero-row dataset with a valid schema and loading the
file back succeeds and yields a zero-row dataset with the original column
names and declared column types. -/
theorem c5_empty_roundtrip (D : Dataset) (hs : validSchema D.cols)
    (hempty : D.rows = []) :
    load_dataset (save_dataset D) = .ok D :=
  load_save_roundtrip D hs (by
    intro r hr
    rw [hempty] at hr
    simp at hr)

/-- Claim C5 (witness): a concrete zero-row dataset round-trips. -/
theorem c5_witness :
    load_dataset (save_dataset ⟨[⟨"id", "int64"⟩, ⟨"name", "object"⟩], []⟩) =
      .ok ⟨[⟨"id", "int64"⟩, ⟨"name", "object"⟩], []⟩ :=
  c5_empty_roundtrip ⟨[⟨"id", "int64"⟩, ⟨"name", "object"⟩], []⟩ (by decide) rfl

/-- Claim C6: on a file with well-formed headers (equal field counts,
duplicate-free names, supported dtype tags) and rectangular quote-free data
rows, a data value that does not parse as the declared type at its column's
position in the first header line makes `load_dataset` fail with the
type-coercion error instead of returning a dataset. -/
theorem c6_type_coercion (s t c : String) (rest : List String)
    (hl : pythonLines s = t :: c :: rest)
    (hhead : wfHeaders (strSplitOn ',' (strRstrip t)) (strSplitOn ',' (strRstrip c)))
    (hbody : wfBody (strSplitOn ',' (strRstrip c)) rest)
    (hbad : ∃ l ∈ rest, l ≠ "" ∧ ∃ (i : Nat) (tag field : String),
      (strSplitOn ',' (strRstrip t))[i]? = some tag ∧
      (strSplitOn ',' l)[i]? = some field ∧
      coerceField (some tag) field = .error .typeCoercionError) :
    load_dataset s = .error .typeCoercionError := by
  obtain ⟨hlen, hnd, hsupp⟩ := hhead
  rw [load_dataset_cons t c rest s hl]
  rw [if_pos hnd]
  have hall : (List.zip (strSplitOn ',' (strRstrip c))
      (strSplitOn ',' (strRstrip t))).all (fun p => supportedTag p.2) = true := by
    rw [List.all_eq_true]
    intro p hp
    obtain ⟨a, b⟩ := p
    exact hsupp b (List.of_mem_zip hp).2
  rw [if_pos hall]
  rw [map_dictLookup_zip _ _ hnd hlen.symm]
  rw [parseRows_bad _ rest hsupp
    (fun l hl' hne => ((hbody l hl' hne).1).trans hlen.symm) hbad]

/-- Claim C6 (witness): the value "x" in an `int64` column fails the load. -/
theorem c6_witness : load_dataset "int64\na\nx\n" = .error .typeCoercionError :=
  c6_type_coercion "int64\na\nx\n" "int64" "a" ["x"] (by decide) (by decide)
    (by decide)
    ⟨"x", by decide, by decide, 0, "int64", "x", by decide, by decide, by decide⟩

/-- Claim C7 (counterexample): for the key "WHOLE COUNTRY" the name lookup
does not return the first matching row's identifier: a table whose first
row carries that name with region id 7 still yields 0. -/
theorem c7_counterexample :
    get_rid_by_name "WHOLE COUNTRY"
      [⟨1, 7, "WHOLE COUNTRY", "x", "y", "a", "b", "c"⟩] = .ok (some 0) ∧
    (([⟨1, 7, "WHOLE COUNTRY", "x", "y", "a", "b", "c"⟩] : List MappingRow).find?
      (fun r => r.region_fi == "WHOLE COUNTRY" || r.region_sv == "WHOLE COUNTRY" ||
        r.region_en == "WHOLE COUNTRY")).map (fun r => r.region_id) = some 7 := by
  constructor
  · decide
  · decide

/-- Claim C7 (amended): for every name other than the special-cased
"WHOLE COUNTRY" (which short-circuits `get_rid_by_name`), the name lookups
compare the key for case-sensitive exact equality against the Finnish,
Swedish and English name columns and return the identifier of the first
matching row in table scan order (`None` when no row matches);
`get_mid_by_name` does so for every name. -/
theorem c7_amended :
    (∀ (name : String) (m : List MappingRow), name ≠ "WHOLE COUNTRY" →
      get_rid_by_name name m = .ok ((m.find? (fun r =>
        r.region_fi == name || r.region_sv == name || r.region_en == name)).map
        (fun r => r.region_id))) ∧
    (∀ (name : String) (m : List MappingRow),
      get_mid_by_name name m = .ok ((m.find? (fun r =>
        r.municipality_fi == name || r.municipality_sv == name ||
        r.municipality_en == name)).map (fun r => r.municipality_id))) := by
  constructor
  · intro name m hwc
    unfold get_rid_by_name
    rw [if_neg (by simpa using hwc)]
    exact guarded_first _ _ m
  · intro name m
    unfold get_mid_by_name
    exact guarded_first _ _ m

/-- Claim C7 (witness): the characterization at a concrete table. -/
theorem c7_witness :
    get_rid_by_name "Uusimaa"
      [⟨91, 1, "Uusimaa", "Nyland", "Uusimaa", "Helsinki", "Helsingfors", "Helsinki"⟩] =
      .ok ((([⟨91, 1, "Uusimaa", "Nyland", "Uusimaa", "Helsinki", "Helsingfors",
        "Helsinki"⟩] : List MappingRow).find? (fun r =>
        r.region_fi == "Uusimaa" || r.region_sv == "Uusimaa" ||
        r.region_en == "Uusimaa")).map (fun r => r.region_id)) ∧
    get_mid_by_name "Helsinki"
      [⟨91, 1, "Uusimaa", "Nyland", "Uusimaa", "Helsinki", "Helsingfors", "Helsinki"⟩] =
      .ok ((([⟨91, 1, "Uusimaa", "Nyland", "Uusimaa", "Helsinki", "Helsingfors",
        "Helsinki"⟩] : List MappingRow).find? (fun r =>
        r.municipality_fi == "Helsinki" || r.municipality_sv == "Helsinki" ||
        r.municipality_en == "Helsinki")).map (fun r => r.municipality_id)) :=
  ⟨c7_amended.1 "Uusimaa"
      [⟨91, 1, "Uusimaa", "Nyland", "Uusimaa", "Helsinki", "Helsingfors", "Helsinki"⟩]
      (by decide),
   c7_amended.2 "Helsinki"
      [⟨91, 1, "Uusimaa", "Nyland", "Uusimaa", "Helsinki", "Helsingfors", "Helsinki"⟩]⟩

/-! ### Claim C8 helper: shape of a scoped-handle trace -/

theorem trace_shape (fn mode : String) (mids : List FileEvent)
    (hm : ∀ e ∈ mids, isAcquire e = false ∧ isRelease e = false) :
    (FileEvent.acquire fn mode :: mids ++ [FileEvent.release fn]).countP isAcquire = 1 ∧
    (FileEvent.acquire fn mode :: mids ++ [FileEvent.release fn]).countP isRelease = 1 ∧
    (FileEvent.acquire fn mode :: mids ++ [FileEvent.release fn]).head? =
      some (.acquire fn mode) ∧
    (FileEvent.acquire fn mode :: mids ++ [FileEvent.release fn]).getLast? =
      some (.release fn) := by
  have h1 : mids.countP isAcquire = 0 :=
    List.countP_eq_zero.mpr (fun e he => by simp [(hm e he).1])
  have h2 : mids.countP isRelease = 0 :=
    List.countP_eq_zero.mpr (fun e he => by simp [(hm e he).2])
  refine ⟨?_, ?_, rfl, ?_⟩
  · simp [List.countP_cons, List.countP_append, h1, isAcquire, isRelease]
  · simp [List.countP_cons, List.countP_append, h2, isAcquire, isRelease]
  · have hsplit : FileEvent.acquire fn mode :: mids ++ [FileEvent.release fn] =
        (FileEvent.acquire fn mode :: mids) ++ [FileEvent.release fn] := rfl
    rw [hsplit, List.getLast?_concat]

/-- Claim C8: each codec call acquires exactly one file handle at the start
of its scoped block and releases it as the final event — for `load_dataset`
this holds for every file content, hence both when the call returns a
dataset and when it propagates an error. -/
theorem c8_scoped_handles :
    (∀ (fn : String) (D : Dataset),
      (save_dataset_trace fn D).countP isAcquire = 1 ∧
      (save_dataset_trace fn D).countP isRelease = 1 ∧
      (save_dataset_trace fn D).head? = some (.acquire fn "wt") ∧
      (save_dataset_trace fn D).getLast? = some (.release fn)) ∧
    (∀ (fn content : String),
      (load_dataset_run fn content).2.countP isAcquire = 1 ∧
      (load_dataset_run fn content).2.countP isRelease = 1 ∧
      (load_dataset_run fn content).2.head? = some (.acquire fn "rt") ∧
      (load_dataset_run fn content).2.getLast? = some (.release fn)) := by
  constructor
  · intro fn D
    exact trace_shape fn "wt" ((saveLines D).map .writeLine)
      (by intro e he; rcases List.mem_map.mp he with ⟨l, _, rfl⟩; exact ⟨rfl, rfl⟩)
  · intro fn content
    exact trace_shape fn "rt" ((pythonLines content).map .readLine)
      (by intro e he; rcases List.mem_map.mp he with ⟨l, _, rfl⟩; exact ⟨rfl, rfl⟩)

/-- Claim C9: `get_rid_by_name` applied to the exact string "WHOLE COUNTRY"
returns the integer 0 for every mapping table — the branch fires before the
table is consulted, so conflicting or absent rows are irrelevant. -/
theorem c9_whole_country (mappings : List MappingRow) :
    get_rid_by_name "WHOLE COUNTRY" mappings = .ok (some 0) := rfl

/-- Claim C10 (counterexample): the quarter-end timestamp is not returned
for every year: year 3000 exceeds the upper bound of pandas' nanosecond
`Timestamp` range (2262-04-11), so `pd.Timestamp(3000, 3, 31)` raises
`OutOfBoundsDatetime` instead of returning March 31. -/
theorem c10_counterexample :
    get_last_day_of_quarter 3000 1 = .error .outOfBoundsDatetime := by decide

/-- Claim C10 (amended): for every year in a range where all four quarter
ends are representable nanosecond timestamps (1678–2261), quarters 1–4
yield March 31, June 30, September 30 and December 31 of that year; any
other quarter value yields `None` (never raises) for every year. -/
theorem c10_amended (year : Int) (hy : 1678 ≤ year ∧ year ≤ 2261) :
    get_last_day_of_quarter year 1 = .ok (some ⟨year, 3, 31⟩) ∧
    get_last_day_of_quarter year 2 = .ok (some ⟨year, 6, 30⟩) ∧
    get_last_day_of_quarter year 3 = .ok (some ⟨year, 9, 30⟩) ∧
    get_last_day_of_quarter year 4 = .ok (some ⟨year, 12, 31⟩) ∧
    (∀ q : Int, q ≠ 1 → q ≠ 2 → q ≠ 3 → q ≠ 4 → ∀ y : Int,
      get_last_day_of_quarter y q = .ok none) := by
  obtain ⟨hy1, hy2⟩ := hy
  have hts : ∀ m d : Nat, 1 ≤ m → m ≤ 12 → 1 ≤ d → d ≤ daysInMonth year m →
      16770922 ≤ dateIdx year m d → dateIdx year m d ≤ 22620411 →
      pdTimestamp year m d = .ok ⟨year, m, d⟩ := by
    intro m d h1 h2 h3 h4 h5 h6
    unfold pdTimestamp
    rw [if_pos ⟨h1, h2, h3, h4⟩, if_pos ⟨h5, h6⟩]
  refine ⟨?_, ?_, ?_, ?_, ?_⟩
  · have e : get_last_day_of_quarter year 1 = (pdTimestamp year 3 31).map some := by
      unfold get_last_day_of_quarter
      norm_num
    rw [e, hts 3 31 (by norm_num) (by norm_num) (by norm_num)
      (by simp [daysInMonth]) (by unfold dateIdx; push_cast; omega)
      (by unfold dateIdx; push_cast; omega)]
    rfl
  · have e : get_last_day_of_quarter year 2 = (pdTimestamp year 6 30).map some := by
      unfold get_last_day_of_quarter
      norm_num
    rw [e, hts 6 30 (by norm_num) (by norm_num) (by norm_num)
      (by simp [daysInMonth]) (by unfold dateIdx; push_cast; omega)
      (by unfold dateIdx; push_cast; omega)]
    rfl
  · have e : get_last_day_of_quarter year 3 = (pdTimestamp year 9 30).map some := by
      unfold get_last_day_of_quarter
      norm_num
    rw [e, hts 9 30 (by norm_num) (by norm_num) (by norm_num)
      (by simp [daysInMonth]) (by unfold dateIdx; push_cast; omega)
      (by unfold dateIdx; push_cast; omega)]
    rfl
  · have e : get_last_day_of_quarter year 4 = (pdTimestamp year 12 31).map some := by
      unfold get_last_day_of_quarter
      norm_num
    rw [e, hts 12 31 (by norm_num) (by norm_num) (by norm_num)
      (by simp [daysInMonth]) (by unfold dateIdx; push_cast; omega)
      (by unfold dateIdx; push_cast; omega)]
    rfl
  · intro q h1 h2 h3 h4 y
    unfold get_last_day_of_quarter
    rw [if_neg h1, if_neg h2, if_neg h3, if_neg h4]

/-- Claim C10 (witness): year 2000 at an in-range year; quarter 5 yields
`None`. -/
theorem c10_witness :
    (1678 ≤ (2000 : Int) ∧ (2000 : Int) ≤ 2261) ∧
    get_last_day_of_quarter 2000 1 = .ok (some ⟨2000, 3, 31⟩) ∧
    get_last_day_of_quarter 2000 5 = .ok none :=
  ⟨by norm_num, (c10_amended 2000 (by norm_num)).1,
   (c10_amended 2000 (by norm_num)).2.2.2.2 5 (by norm_num) (by norm_num)
     (by norm_num) (by norm_num) 2000⟩
